import Mathlib

/-
Verification of the xtend templating engine (src/xtend.py): a shallow
embedding of its lexer (`Scanner`), parser (`Parser`), error formatter
(`XtendParseException.readable_error_position`) and renderer (the `run`
methods of the AST node classes), together with theorems settling the
specification claims.
-/

namespace Xtend

/-! ## Python string helpers -/

/-- Characters removed by Python's `str.strip()` (ASCII whitespace). -/
def pyIsSpace (c : Char) : Bool :=
  c == ' ' || c == '\t' || c == '\n' || c == '\x0b' || c == '\x0c' || c == '\r'

/-- Python `str.strip()` on a character list: drop whitespace from both ends. -/
def pyStripList (l : List Char) : List Char :=
  ((l.dropWhile pyIsSpace).reverse.dropWhile pyIsSpace).reverse

/-- Python `str.strip()`. -/
def pyStrip (s : String) : String := ⟨pyStripList s.data⟩

/-- Python `str.replace(old, new)` for a single-character `old`. -/
def pyReplaceChar (c : Char) (rep : List Char) : List Char → List Char
  | [] => []
  | x :: xs => if x = c then rep ++ pyReplaceChar c rep xs else x :: pyReplaceChar c rep xs

/-- Python `str.split('\n')`: split at every newline; always nonempty. -/
def pySplitNl : List Char → List (List Char)
  | [] => [[]]
  | c :: rest =>
      match pySplitNl rest with
      | [] => [[c]]
      | l :: ls => if c = '\n' then [] :: l :: ls else (c :: l) :: ls

/-! ## Raw token stream: `Scanner.token_pattern.finditer(input)`

The regex alternation is, in order:
`keyword  : IF|ELSE|ELIF|FOR|IN|END|SEPARATOR`
`open     : (?<!\x7b)\x7b(?!\x7b)`
`close    : (?<!\x7d)\x7d(?!\x7d)`
`newline  : \n`
`indent   : "    "|\t`
`other    : .`
`finditer` scans left to right, taking at each position the first
alternative that matches; the lookbehind inspects the character in the
input immediately before the match position, the lookahead the one after
the candidate brace.  Every character is covered (`.` matches everything
except `\n`, which the `newline` alternative catches), so the matches
tile the input.  Spans are byte offsets `[start, stop)` as in
`re.Match.span()` (the sources are ASCII in all claims). -/

/-- A raw regex match: group name, matched text and span. -/
structure Raw where
  kind : String
  value : String
  span : Nat × Nat
deriving Repr, DecidableEq

/-- The keyword alternation, in the regex's (leftmost-first) order. -/
def keywordList : List String := ["IF", "ELSE", "ELIF", "FOR", "IN", "END", "SEPARATOR"]

/-- The first keyword of the alternation that matches at this position. -/
def matchKeyword (cs : List Char) : Option String :=
  keywordList.find? (fun kw => kw.data.isPrefixOf cs)

/-- The raw token stream: `prev` is the character just before position `i`
(for the brace lookbehinds), `i` the current byte offset.  The `fuel`
argument only pays for the recursion (each step consumes at least one
character and one unit of fuel, so any fuel at least the length of the
character list gives the full stream, see `rawTokens_fuel`). -/
def rawTokens : Nat → Option Char → Nat → List Char → List Raw
  | _, _, _, [] => []
  | 0, _, _, _ :: _ => []
  | fuel + 1, prev, i, c :: rest =>
    match matchKeyword (c :: rest) with
    | some kw =>
        ⟨"keyword", kw, (i, i + kw.data.length)⟩ ::
          rawTokens fuel kw.data.getLast? (i + kw.data.length) ((c :: rest).drop kw.data.length)
    | none =>
      if c == '{' && prev != some '{' && rest.head? != some '{' then
        ⟨"open", "\x7b", (i, i + 1)⟩ :: rawTokens fuel (some c) (i + 1) rest
      else if c == '}' && prev != some '}' && rest.head? != some '}' then
        ⟨"close", "\x7d", (i, i + 1)⟩ :: rawTokens fuel (some c) (i + 1) rest
      else if c == '\n' then
        ⟨"newline", "\n", (i, i + 1)⟩ :: rawTokens fuel (some c) (i + 1) rest
      else
        match c, rest with
        | ' ', ' ' :: ' ' :: ' ' :: rest4 =>
            ⟨"indent", "    ", (i, i + 4)⟩ :: rawTokens fuel (some ' ') (i + 4) rest4
        | '\t', r =>
            ⟨"indent", "\t", (i, i + 1)⟩ :: rawTokens fuel (some '\t') (i + 1) r
        | c', r =>
            ⟨"other", c'.toString, (i, i + 1)⟩ :: rawTokens fuel (some c') (i + 1) r

/-- All raw matches of the input. -/
def rawAll (input : String) : List Raw :=
  rawTokens input.data.length none 0 input.data

/-! ## Scanner: the mode-switching `Scanner.next` loop and `scan`

`Scanner.next` groups raw tokens into the tokens the parser sees, driven by
the `string`/`xtend` state.  `Scanner.position` is the span of the raw match
most recently pulled from the regex stream; pulls happen both when a raw
token is consumed and when the one-token lookahead is filled during the
grouping `while` loops, so the position recorded for a grouped token is the
span of the raw token just after the group (when one exists).  Each emitted
token carries that position, which is exactly the `scanner.position` a
parser failure would report right after receiving the token. -/

/-- A token as returned by `Scanner.next`, stamped with `Scanner.position`
at the moment it was returned. -/
structure Tok where
  kind : String
  value : String
  pos : Nat × Nat
deriving Repr, DecidableEq

/-- What happens at the end of the token stream: either the raw stream is
exhausted (with the final `Scanner.position` and whether the scanner was
still in `xtend` state, which `Scanner.end` turns into an "unterminated
directive" `XtendParseException`), or `Scanner.next` hits its
`raise NotImplementedError()` fallthrough (an out-of-place brace). -/
inductive EndInfo where
  | eof (finalPos : Nat × Nat) (unterminated : Bool)
  | notImplemented
deriving Repr, DecidableEq

/-- The grouping `while self._peek()[0] in kinds` loop: consume raw tokens
while their kind is in `kinds`, joining their text.  `p` is the current
`Scanner.position`; the boundary peek that ends the loop pulls the next raw
token and therefore advances the position to its span. -/
def takeGroup (kinds : List String) : Nat × Nat → List Raw → String × (Nat × Nat) × List Raw
  | p, [] => ("", p, [])
  | _, r :: rest =>
    if r.kind ∈ kinds then
      let g := takeGroup kinds r.span rest
      (r.value ++ g.1, g.2)
    else ("", r.span, r :: rest)

/-- The full token stream produced by repeatedly calling `Scanner.next` on
the raw matches, starting from `Scanner.position = p` and state `st`
(`"string"` or `"xtend"`).  Fuel pays for the recursion; every step
consumes at least one raw token, so fuel at least the length of the raw
list gives the whole stream (`scanLoop_fuel`); exhausted fuel is reported
as a spurious `notImplemented`, which never happens with enough fuel. -/
def scanLoop : Nat → Nat × Nat → String → List Raw → List Tok × EndInfo
  | _, p, st, [] => ([], .eof p (st == "xtend"))
  | 0, _, _, _ :: _ => ([], .notImplemented)
  | fuel + 1, _, st, r :: rest =>
    if st == "string" then
      if r.kind == "other" || r.kind == "keyword" then
        let g := takeGroup ["other", "keyword"] r.span rest
        let s := scanLoop fuel g.2.1 st g.2.2
        (⟨"string", r.value ++ g.1, g.2.1⟩ :: s.1, s.2)
      else if r.kind == "newline" || r.kind == "indent" then
        let s := scanLoop fuel r.span st rest
        (⟨r.kind, r.value, r.span⟩ :: s.1, s.2)
      else if r.kind == "open" then
        scanLoop fuel r.span "xtend" rest
      else ([], .notImplemented)
    else
      if r.kind == "other" || r.kind == "newline" || r.kind == "indent" then
        let g := takeGroup ["other", "newline", "indent"] r.span rest
        let cv := r.value ++ g.1
        if pyStrip cv ≠ "" then
          let s := scanLoop fuel g.2.1 st g.2.2
          (⟨"code", cv, g.2.1⟩ :: s.1, s.2)
        else scanLoop fuel g.2.1 st g.2.2
      else if r.kind == "keyword" then
        let s := scanLoop fuel r.span st rest
        (⟨"keyword", r.value, r.span⟩ :: s.1, s.2)
      else if r.kind == "close" then
        scanLoop fuel r.span "string" rest
      else ([], .notImplemented)

/-- Errors a parse can raise: `err` models `XtendParseException` (with the
scanner position, the `expected` description — a singleton list for a plain
string — and the `got` token), `notImpl` models the `raise
NotImplementedError()` fallthroughs, and `fuelOut` is the defect standing
for non-termination of the source (reachable only through the
`parse_if` loop's spin on end-of-input). -/
inductive PErr where
  | err (pos : Nat × Nat) (expected : List String) (got : Option String)
  | notImpl
  | fuelOut
deriving Repr, DecidableEq

/-- The tokens of the whole input, plus how the stream ends. -/
def scanTokens (input : String) : List Tok × EndInfo :=
  scanLoop (rawAll input).length (0, 0) "string" (rawAll input)

/-- The source `scan` function: collect all tokens, then `Scanner.end`. -/
def scan (input : String) : Except PErr (List Tok) :=
  match scanTokens input with
  | (_, .eof p true) => .error (.err p ["\x7d"] none)
  | (toks, .eof _ false) => .ok toks
  | (_, .notImplemented) => .error .notImpl

/-! ## Renderer: the `run` methods of the AST node classes

Python values are modelled by `PyVal`, dictionaries by insertion-ordered
association lists, and the foreign `eval(code, globals, locals)` by an
abstract total function `EvalFn`.  Because expression evaluation may have
observable side effects (the spec's short-circuit and evaluate-once
properties), `run` additionally returns the list of `eval` calls it makes,
in the order the source makes them.  Exceptions the renderer itself can
raise (`TypeError` from `str.join` over non-strings or from iterating a
non-iterable, `AttributeError` from `.join` on a non-string separator) are
modelled with `Except`. -/

/-- A Python value as far as the renderer can observe it. -/
inductive PyVal where
  | none
  | bool (b : Bool)
  | int (n : Int)
  | str (s : String)
  | list (elems : List PyVal)
deriving Repr

/-- A Python dict, as an insertion-ordered association list. -/
abbrev Ctx := List (String × PyVal)

/-- One call to the foreign `eval(code, globals, locals)`. -/
structure EvalCall where
  code : String
  globals : Ctx
  locals : Ctx
deriving Repr

/-- The foreign expression evaluator. -/
abbrev EvalFn := String → Ctx → Ctx → PyVal

/-- Exceptions the renderer itself raises. -/
inductive RunErr where
  | typeError
  | attributeError
deriving Repr, DecidableEq

/-- Python truthiness `bool(v)` for the modelled values. -/
def PyVal.truthy : PyVal → Bool
  | .none => false
  | .bool b => b
  | .int n => n != 0
  | .str s => s != ""
  | .list l => !l.isEmpty

/-- Python `d[k] = v`: replace in place if the key exists, else append. -/
def dictSet : Ctx → String → PyVal → Ctx
  | [], k, v => [(k, v)]
  | (k', v') :: rest, k, v =>
    if k' = k then (k, v) :: rest else (k', v') :: dictSet rest k v

/-- Python iteration `for item in v`: lists yield their elements, strings
their characters; other modelled values raise `TypeError`. -/
def pyIter : PyVal → Except RunErr (List PyVal)
  | .list l => .ok l
  | .str s => .ok (s.data.map (fun c => .str c.toString))
  | _ => .error .typeError

/-- The element check of Python `str.join`: every element must be a str. -/
def pyStrList : List PyVal → Except RunErr (List String)
  | [] => .ok []
  | PyVal.str s :: rest => (pyStrList rest).map (fun ss => s :: ss)
  | _ :: _ => .error .typeError

/-- Python `sep.join(vals)`: `TypeError` unless every element is a str. -/
def pyJoin (sep : String) (vals : List PyVal) : Except RunErr String :=
  (pyStrList vals).map (String.intercalate sep)

/-- The AST.  Mirrors `StrNode`, `ExprNode`, `StmtsNode`, `IfNode` and
`ForNode` of the source; the `context : Context` field of the source nodes
is omitted because it is never read by any of the `run` methods or the
parser (its single `remove` attribute is dead). -/
inductive Node where
  | strNode (value : String)
  | exprNode (expr : String)
  | stmtsNode (stmts : List Node)
  | ifNode (ifBranches : List (String × Node)) (elseBranch : Option Node)
  | forNode (var : String) (listExpr : String) (body : Node) (separatorExpr : Option String)
deriving Repr

mutual

/-- The `run` method of each node class, paired with the trace of `eval`
calls it performs, in order.
`StrNode.run` is `self.value.replace(' ', '.').replace('\n', 'R\n')`;
`ExprNode.run` is `eval(self.expr, *args)` (no stringification);
`StmtsNode.run` is `''.join([stmt.run(*args) for stmt in self.stmts])`;
`IfNode.run` and `ForNode.run` are delegated to `runBranches`/`runLoop`. -/
def runNode (ev : EvalFn) : Node → Ctx → Ctx → Except RunErr PyVal × List EvalCall
  | .strNode v, _, _ =>
      (.ok (.str ⟨pyReplaceChar '\n' "R\n".data (pyReplaceChar ' ' ".".data v.data)⟩), [])
  | .exprNode code, g, l => (.ok (ev code g l), [⟨code, g, l⟩])
  | .stmtsNode ss, g, l =>
      match runStmtsList ev ss g l with
      | (.error e, t) => (.error e, t)
      | (.ok vals, t) => ((pyJoin "" vals).map PyVal.str, t)
  | .ifNode br els, g, l => runBranches ev br els g l
  | .forNode var le body sep, g, l =>
      let call0 : EvalCall := ⟨le, g, l⟩
      match pyIter (ev le g l) with
      | .error e => (.error e, [call0])
      | .ok items =>
        match runLoop ev body var g l items with
        | (.error e, t) => (.error e, call0 :: t)
        | (.ok vals, t) =>
          match sep with
          | some c =>
            if c ≠ "" then
              match ev c g l with
              | PyVal.str s => ((pyJoin s vals).map PyVal.str, call0 :: (t ++ [⟨c, g, l⟩]))
              | _ => (.error .attributeError, call0 :: (t ++ [⟨c, g, l⟩]))
            else ((pyJoin "" vals).map PyVal.str, call0 :: t)
          | Option.none => ((pyJoin "" vals).map PyVal.str, call0 :: t)
termination_by n _ _ => (sizeOf n, 0)

/-- The list comprehension `[stmt.run(*args) for stmt in self.stmts]`:
run each statement in order, collecting values; a raising statement stops
the comprehension and propagates. -/
def runStmtsList (ev : EvalFn) : List Node → Ctx → Ctx → Except RunErr (List PyVal) × List EvalCall
  | [], _, _ => (.ok [], [])
  | s :: rest, g, l =>
      match runNode ev s g l with
      | (.error e, t) => (.error e, t)
      | (.ok v, t) =>
          match runStmtsList ev rest g l with
          | (rr, tt) => (rr.map (fun vs => v :: vs), t ++ tt)
termination_by ss _ _ => (sizeOf ss, 0)

/-- `IfNode.run`: evaluate each branch condition in order; on the first
truthy one render that branch's body and return; otherwise render the else
branch if present, else return the empty string. -/
def runBranches (ev : EvalFn) : List (String × Node) → Option Node → Ctx → Ctx → Except RunErr PyVal × List EvalCall
  | [], els, g, l =>
      match els with
      | some e => runNode ev e g l
      | Option.none => (.ok (.str ""), [])
  | (c, b) :: rest, els, g, l =>
      if (ev c g l).truthy then
        match runNode ev b g l with
        | (r, t) => (r, ⟨c, g, l⟩ :: t)
      else
        match runBranches ev rest els g l with
        | (r, t) => (r, ⟨c, g, l⟩ :: t)
termination_by br els _ _ => (sizeOf br + sizeOf els, 0)

/-- The loop of `ForNode.run`: `new_locals` starts as `dict(**locals)` and
is carried across iterations; each iteration sets `new_locals[var] = item`
and runs the body under it. -/
def runLoop (ev : EvalFn) (body : Node) (var : String) (g : Ctx) : Ctx → List PyVal → Except RunErr (List PyVal) × List EvalCall
  | _, [] => (.ok [], [])
  | nl, it :: rest =>
      let nl' := dictSet nl var it
      match runNode ev body g nl' with
      | (.error e, t) => (.error e, t)
      | (.ok v, t) =>
          match runLoop ev body var g nl' rest with
          | (rr, tt) => (rr.map (fun vs => v :: vs), t ++ tt)
termination_by _ items => (sizeOf body, items.length + 1)

end

/-! ## Parser

The parser pulls grouped tokens lazily from the scanner; we model the
remaining stream as a `List Tok` together with the fixed `EndInfo` telling
what happens once it is exhausted (plain end of stream, or a pending
`NotImplementedError` from the lexer).  The threaded `Nat × Nat` value is
`Scanner.position`: fetching a token (by `_next` or `_peek`) sets it to the
position stamped on that token; a fetch past the end of an `eof` stream
sets it to the scanner's final position (the spans of any trailing raw
tokens are pulled while producing the `None` answer).

The mutually recursive `parse_*` methods take a fuel argument: a recursion
step is paid for exactly where the source loops or recurses, so running out
of fuel (`PErr.fuelOut`) models non-termination of the source, which is
reachable only through `parse_if`'s `while True` spinning on end of input.
All results are fuel-monotone in the sense that any sufficiently large fuel
gives the source's behaviour; `parse` supplies `input.length + 1`. -/

/-- `Parser._next` (with an empty parser lookahead): take the next token,
updating `Scanner.position`. -/
def pNext : List Tok → (Nat × Nat) → EndInfo → Except PErr (Option (String × String) × List Tok × (Nat × Nat))
  | [], _, .eof fp _ => .ok (Option.none, [], fp)
  | [], _, .notImplemented => .error .notImpl
  | t :: rest, _, _ => .ok (some (t.kind, t.value), rest, t.pos)

/-- `Parser._peek`: look at the next token without consuming it; the
underlying pull still advances `Scanner.position`. -/
def pPeek : List Tok → (Nat × Nat) → EndInfo → Except PErr (Option (String × String) × (Nat × Nat))
  | [], _, .eof fp _ => .ok (Option.none, fp)
  | [], _, .notImplemented => .error .notImpl
  | t :: _, _, _ => .ok (some (t.kind, t.value), t.pos)

/-- `Parser.parse_keyword(keyword)`: the next token must be a keyword with
exactly this text. -/
def parseKeyword (kw : String) (tk : List Tok) (pos : Nat × Nat) (e : EndInfo) :
    Except PErr (List Tok × (Nat × Nat)) := do
  let (t, tk', pos') ← pNext tk pos e
  match t with
  | some (k, v) =>
      if k = "keyword" ∧ v = kw then .ok (tk', pos')
      else .error (.err pos' [kw] (some k))
  | Option.none => .error (.err pos' [kw] Option.none)

/-- `Parser.parse_code`: the next token must be a code token; its text is
returned stripped. -/
def parseCode (tk : List Tok) (pos : Nat × Nat) (e : EndInfo) :
    Except PErr (String × List Tok × (Nat × Nat)) := do
  let (t, tk', pos') ← pNext tk pos e
  match t with
  | some ("code", v) => .ok (pyStrip v, tk', pos')
  | some (k, _) => .error (.err pos' ["code"] (some k))
  | Option.none => .error (.err pos' ["code"] Option.none)

/-- `Parser.parse_string`: greedily collect `string`/`indent`/`newline`
tokens, concatenating their text. -/
def parseString : List Tok → (Nat × Nat) → EndInfo → Except PErr (String × List Tok × (Nat × Nat))
  | [], _, .eof fp _ => .ok ("", [], fp)
  | [], _, .notImplemented => .error .notImpl
  | t :: rest, _, e =>
      if t.kind = "string" ∨ t.kind = "indent" ∨ t.kind = "newline" then do
        let (s, tk', p') ← parseString rest t.pos e
        .ok (t.value ++ s, tk', p')
      else .ok ("", t :: rest, t.pos)

mutual

/-- `Parser.parse_stmt`: dispatch on the peeked token. -/
def parseStmt : Nat → List Tok → (Nat × Nat) → EndInfo → Except PErr (Node × List Tok × (Nat × Nat))
  | 0, _, _, _ => .error .fuelOut
  | f + 1, tk, pos, e => do
      let (t, pos') ← pPeek tk pos e
      match t with
      | some ("keyword", "IF") => parseIf f tk pos' e
      | some ("keyword", "FOR") => parseFor f tk pos' e
      | some (k, _) =>
          if k = "string" ∨ k = "indent" ∨ k = "newline" then do
            let (s, tk', p') ← parseString tk pos' e
            .ok (.strNode s, tk', p')
          else if k = "code" then do
            let (c, tk', p') ← parseCode tk pos' e
            .ok (.exprNode c, tk', p')
          else .error .notImpl
      | Option.none => .error .notImpl

/-- The collecting loop of `Parser.parse_stmts`: gather statements until a
peeked `ELIF`/`ELSE`/`END` keyword or end of input; returns the collected
statements and the peeked terminator (its kind, or none at end of input). -/
def parseStmtsLoop : Nat → List Node → List Tok → (Nat × Nat) → EndInfo →
    Except PErr (List Node × Option String × List Tok × (Nat × Nat))
  | 0, _, _, _, _ => .error .fuelOut
  | f + 1, acc, tk, pos, e => do
      let (t, pos') ← pPeek tk pos e
      match t with
      | some ("keyword", v) =>
          if v = "ELIF" ∨ v = "ELSE" ∨ v = "END" then
            .ok (acc.reverse, some "keyword", tk, pos')
          else do
            let (n, tk', pos'') ← parseStmt f tk pos' e
            parseStmtsLoop f (n :: acc) tk' pos'' e
      | some _ => do
          let (n, tk', pos'') ← parseStmt f tk pos' e
          parseStmtsLoop f (n :: acc) tk' pos'' e
      | Option.none => .ok (acc.reverse, Option.none, tk, pos')

/-- `Parser.parse_stmts(allow_empty)`: collect statements, then reject an
empty sequence unless `allow_empty` (never passed as true by the source). -/
def parseStmts : Nat → Bool → List Tok → (Nat × Nat) → EndInfo →
    Except PErr (Node × List Tok × (Nat × Nat))
  | 0, _, _, _, _ => .error .fuelOut
  | f + 1, allowEmpty, tk, pos, e => do
      let (stmts, got, tk', pos') ← parseStmtsLoop f [] tk pos e
      if !allowEmpty ∧ stmts.isEmpty then
        .error (.err pos' ["string", "code"] got)
      else
        .ok (.stmtsNode stmts, tk', pos')

/-- The `while True` loop of `Parser.parse_if`, entered after the first
branch: `ELIF` adds a branch, `ELSE` takes the else body and then requires
`END`, `END` closes; a peeked non-keyword (only possible at end of input)
makes the source spin forever, modelled by burning fuel. -/
def parseIfLoop : Nat → List (String × Node) → List Tok → (Nat × Nat) → EndInfo →
    Except PErr (List (String × Node) × Option Node × List Tok × (Nat × Nat))
  | 0, _, _, _, _ => .error .fuelOut
  | f + 1, branches, tk, pos, e => do
      let (t, pos') ← pPeek tk pos e
      match t with
      | some ("keyword", "ELIF") => do
          let (_, tk1, p1) ← pNext tk pos' e
          let (c, tk2, p2) ← parseCode tk1 p1 e
          let (b, tk3, p3) ← parseStmts f false tk2 p2 e
          parseIfLoop f (branches ++ [(c, b)]) tk3 p3 e
      | some ("keyword", "ELSE") => do
          let (_, tk1, p1) ← pNext tk pos' e
          let (b, tk2, p2) ← parseStmts f false tk1 p1 e
          .ok (branches, some b, tk2, p2)
      | some ("keyword", "END") => .ok (branches, Option.none, tk, pos')
      | some ("keyword", _) => .error .notImpl
      | _ => parseIfLoop f branches tk pos' e

/-- `Parser.parse_if`:
`if -> IF CODE stmt (ELIF CODE stmt)* (ELSE stmt)? END`. -/
def parseIf : Nat → List Tok → (Nat × Nat) → EndInfo →
    Except PErr (Node × List Tok × (Nat × Nat))
  | 0, _, _, _ => .error .fuelOut
  | f + 1, tk, pos, e => do
      let (tk1, p1) ← parseKeyword "IF" tk pos e
      let (c, tk2, p2) ← parseCode tk1 p1 e
      let (b, tk3, p3) ← parseStmts f false tk2 p2 e
      let (branches, els, tk4, p4) ← parseIfLoop f [(c, b)] tk3 p3 e
      let (tk5, p5) ← parseKeyword "END" tk4 p4 e
      .ok (.ifNode branches els, tk5, p5)

/-- `Parser.parse_for`:
`for -> FOR code IN code (SEPARATOR code)? stmt END`. -/
def parseFor : Nat → List Tok → (Nat × Nat) → EndInfo →
    Except PErr (Node × List Tok × (Nat × Nat))
  | 0, _, _, _ => .error .fuelOut
  | f + 1, tk, pos, e => do
      let (tk1, p1) ← parseKeyword "FOR" tk pos e
      let (var, tk2, p2) ← parseCode tk1 p1 e
      let (tk3, p3) ← parseKeyword "IN" tk2 p2 e
      let (le, tk4, p4) ← parseCode tk3 p3 e
      let (t, p5) ← pPeek tk4 p4 e
      match t with
      | some ("keyword", "SEPARATOR") => do
          let (tk5, p6) ← parseKeyword "SEPARATOR" tk4 p5 e
          let (sep, tk6, p7) ← parseCode tk5 p6 e
          let (b, tk7, p8) ← parseStmts f false tk6 p7 e
          let (tk8, p9) ← parseKeyword "END" tk7 p8 e
          .ok (.forNode var le b (some sep), tk8, p9)
      | _ => do
          let (b, tk5, p6) ← parseStmts f false tk4 p5 e
          let (tk6, p7) ← parseKeyword "END" tk5 p6 e
          .ok (.forNode var le b Option.none, tk6, p7)

end

/-- `Parser.parse_xtend`: the root statement sequence must consume the
whole stream, then `Scanner.end` re-checks for an unterminated directive. -/
def parseXtend (f : Nat) (tk : List Tok) (e : EndInfo) :
    Except PErr (Node × (Nat × Nat)) := do
  let (node, tk', pos') ← parseStmts f false tk (0, 0) e
  let (t, _, pos'') ← pNext tk' pos' e
  match t with
  | some (k, v) => .error (.err pos'' ["end"] (some (if k = "keyword" then v else k)))
  | Option.none =>
      match e with
      | .eof _ true => .error (.err pos'' ["\x7d"] Option.none)
      | _ => .ok (node, pos'')

/-- The source `parse(input)` function.  The fuel `4 * input.length + 16`
dominates the recursion depth of any terminating parse (fuel is spent per
statement, per construct and per branch, each tied to at least one of the
at most `input.length` tokens); the `parse_if` end-of-input spin is the one
place fuel actually runs out, matching the source's non-termination there. -/
def parse (input : String) : Except PErr Node :=
  let s := scanTokens input
  (parseXtend (4 * input.length + 16) s.1 s.2).map Prod.fst

/-- The source `xtend(input, globals, locals)` entry point with an explicit
context: parse, then run the AST. -/
def xtendRun (ev : EvalFn) (input : String) (g l : Ctx) :
    Except PErr (Except RunErr PyVal × List EvalCall) :=
  (parse input).map (fun ast => runNode ev ast g l)

/-! ## Error formatter: `XtendParseException.readable_error_position` -/

/-- The marker line the source builds for one line:
`for pos in range(0, stop): result += ' ' if pos < start else '^'`. -/
def markerLine (start stop : Int) : String :=
  ⟨(List.range stop.toNat).map (fun p => if Int.ofNat p < start then ' ' else '^')⟩

/-- The line loop of `readable_error_position`: reprint each line; when
`0 <= start < len(line) + 1` also print the marker line; then shift
`start`/`stop` left by `len(line) + 1`. -/
def readableGo : Int → Int → List String → String
  | _, _, [] => ""
  | start, stop, line :: rest =>
      line ++ "\n" ++
        (if start < line.length + 1 ∧ 0 ≤ start then markerLine start stop ++ "\n" else "") ++
        readableGo (start - (line.length + 1)) (stop - (line.length + 1)) rest

/-- `XtendParseException.readable_error_position` for an exception carrying
span `pos`, raised while scanning/parsing `input`. -/
def readableErrorPosition (pos : Nat × Nat) (input : String) : String :=
  readableGo pos.1 pos.2 ((pySplitNl input.data).map (fun l => ⟨l⟩))

/-! ## Claim-support definitions -/

/-- A string with no leading and no trailing whitespace character. -/
def noEdgeWS (s : String) : Bool :=
  (match s.data.head? with
   | some c => !pyIsSpace c
   | _ => true) &&
  (match s.data.getLast? with
   | some c => !pyIsSpace c
   | _ => true)

/-- Every code string stored in an AST (expression codes, branch
conditions, loop variables, iterable codes and separator codes) has no
leading or trailing whitespace. -/
def allCodesStripped : Node → Bool
  | .strNode _ => true
  | .exprNode c => noEdgeWS c
  | .stmtsNode ss => ss.attach.all (fun s => allCodesStripped s.1)
  | .ifNode br els =>
      (br.attach.all (fun p => noEdgeWS p.1.1 && allCodesStripped p.1.2)) &&
      (match els with
       | some e => allCodesStripped e
       | _ => true)
  | .forNode v le b sep =>
      noEdgeWS v && noEdgeWS le && allCodesStripped b &&
      (match sep with
       | some s => noEdgeWS s
       | _ => true)
decreasing_by
  all_goals simp_wf
  all_goals first
    | (have hs := List.sizeOf_lt_of_mem s.2; omega)
    | (obtain ⟨⟨a, b⟩, hmem⟩ := p
       have h1 := List.sizeOf_lt_of_mem hmem
       simp at h1 ⊢
       omega)
    | omega

/-- Sequence a list of already-performed body runs: collect the values in
order, stopping at (and propagating) the first error, and concatenate the
traces of the runs actually reached. -/
def collectLoopRuns : List (Except RunErr PyVal × List EvalCall) → Except RunErr (List PyVal) × List EvalCall
  | [] => (.ok [], [])
  | (r, t) :: rest =>
      match r with
      | .error e => (.error e, t)
      | .ok v =>
          match collectLoopRuns rest with
          | (rr, tt) => (rr.map (fun vs => v :: vs), t ++ tt)

/-- Modelled from the spec for claim C3 (renderer `Loop` semantics): for
each item, derive a new local scope equal to the outer locals with `var`
bound to that item, render the body under that derived scope, and combine
results exactly as `ForNode.run` does.  This differs from the source only
in that every iteration's scope is built directly from the outer locals
`l`, instead of mutating one carried `new_locals` dict. -/
def forRunFreshScopes (ev : EvalFn) (var le : String) (body : Node) (sep : Option String)
    (g l : Ctx) : Except RunErr PyVal × List EvalCall :=
  let call0 : EvalCall := ⟨le, g, l⟩
  match pyIter (ev le g l) with
  | .error e => (.error e, [call0])
  | .ok items =>
    match collectLoopRuns (items.map (fun it => runNode ev body g (dictSet l var it))) with
    | (.error e, t) => (.error e, call0 :: t)
    | (.ok vals, t) =>
      match sep with
      | some c =>
        if c ≠ "" then
          match ev c g l with
          | PyVal.str s => ((pyJoin s vals).map PyVal.str, call0 :: (t ++ [⟨c, g, l⟩]))
          | _ => (.error .attributeError, call0 :: (t ++ [⟨c, g, l⟩]))
        else ((pyJoin "" vals).map PyVal.str, call0 :: t)
      | Option.none => ((pyJoin "" vals).map PyVal.str, call0 :: t)

/-- Modelled from the spec's words for claim C9: the error formatter as the
spec describes it — under each line that overlaps the error span, a marker
line of spaces with carets exactly under the columns covered by the span,
clipped to that line's length; lines entirely before or after the span get
no marker line. -/
def readableSpecGo : Int → Int → List String → String
  | _, _, [] => ""
  | start, stop, line :: rest =>
      let lo := max start 0
      let hi := min stop (line.length : Int)
      line ++ "\n" ++
        (if lo < hi then
          (⟨List.replicate lo.toNat ' ' ++ List.replicate (hi - lo).toNat '^'⟩ : String) ++ "\n"
        else "") ++
        readableSpecGo (start - (line.length + 1)) (stop - (line.length + 1)) rest

/-- The claimed (clipped, every-overlapping-line) formatter of C9. -/
def readableSpecFmt (pos : Nat × Nat) (input : String) : String :=
  readableSpecGo pos.1 pos.2 ((pySplitNl input.data).map (fun l => ⟨l⟩))

/-- The formatter the code actually implements, described directly (the
amended claim C9): the marker line accompanies exactly the line containing
the span's start offset (a start just past the line's end — on its
newline — still counts); it consists of one character per position from
column 0 up to the span's stop, spaces before the start column and carets
from it on, not clipped to the line's length. -/
def readableAmendedGo : Int → Int → List String → String
  | _, _, [] => ""
  | start, stop, line :: rest =>
      line ++ "\n" ++
        (if 0 ≤ start ∧ start ≤ (line.length : Int) then
          (⟨List.replicate start.toNat ' ' ++ List.replicate (stop - start).toNat '^'⟩ : String) ++ "\n"
        else "") ++
        readableAmendedGo (start - (line.length + 1)) (stop - (line.length + 1)) rest

/-- The amended-claim formatter of C9, at the top level. -/
def readableAmendedFmt (pos : Nat × Nat) (input : String) : String :=
  readableAmendedGo pos.1 pos.2 ((pySplitNl input.data).map (fun l => ⟨l⟩))

/-! ## Theorems for the claims -/

/-- Claim C1 (code bug): the claim says that rendering a template made of
literal text and escaped braces only returns the text with `\x7b\x7b` and
`\x7d\x7d` collapsed to single braces and every other character (including
spaces and newlines) unchanged.  The code does neither: no de-escaping
happens anywhere in the pipeline (the scanner's lookaround regex tags both
brace characters of an escape as ordinary text and `StrNode` keeps them),
and `StrNode.run` replaces every space with `.` and every newline with
`R\n` — leftover debug code, contradicted by the expected output of the
repository's own `indent` render test (which is skipped on mismatch).
Rendering the template `"1 \x7b\x7b2\x7d\x7d\n"` yields
`"1.\x7b\x7b2\x7d\x7dR\n"` where the claim requires `"1 \x7b2\x7d\n"`. -/
theorem c1_escaped_text_render_bug :
    xtendRun (fun _ _ _ => PyVal.none) "1 \x7b\x7b2\x7d\x7d\n" [] [] =
      .ok (.ok (.str "1.\x7b\x7b2\x7d\x7dR\n"), []) ∧
    ("1.\x7b\x7b2\x7d\x7dR\n" : String) ≠ "1 \x7b2\x7d\n" := by
  constructor
  · have hp : parse "1 \x7b\x7b2\x7d\x7d\n" = .ok (.stmtsNode [.strNode "1 \x7b\x7b2\x7d\x7d\n"]) := rfl
    simp [xtendRun, hp, Except.map, runNode, runStmtsList]
    rfl
  · decide

/-- Claim C5 (code bug): the claim says an `Expression` node renders to the
stringified result of evaluating its code, a string even for a non-string
value.  `ExprNode.run` is `return eval(self.expr, *args)` with no `str()`
call: under an evaluator returning the integer `5`, the node's run returns
the integer itself (first conjunct), and a statement sequence containing it
then raises `TypeError` in `''.join` instead of rendering `"5"` (second
conjunct).  The source's own annotation `def run(self, *args) -> str` and
the join's requirement that every piece be a str show the claim matches the
intent and the missing stringification is a slip. -/
theorem c5_expression_not_stringified :
    runNode (fun _ _ _ => PyVal.int 5) (.exprNode "x") [] [] =
      (.ok (.int 5), [⟨"x", [], []⟩]) ∧
    runNode (fun _ _ _ => PyVal.int 5) (.stmtsNode [.exprNode "x"]) [] [] =
      (.error .typeError, [⟨"x", [], []⟩]) := by
  constructor
  · simp [runNode]
  · simp [runNode, runStmtsList]
    rfl

/-- Claim C6 (code bug): the claim says a source whose opened directive is
not closed before end of input fails with the unterminated-directive error.
That holds for `"\x7ba"` (second conjunct), but for `"\x7ba\x7b"` — a
directive opened at offset 0 and never closed — `Scanner.next` instead hits
its `raise NotImplementedError()` fallthrough on the unescaped `\x7b`
inside the directive (first conjunct), a branch the source marks
`# pragma: no cover`, i.e. believed unreachable.  The same fallthrough
fires for an unescaped `\x7d` in text mode (third conjunct), where the
claim promises tokenization completes. -/
theorem c6_unterminated_directive_bug :
    scan "\x7ba\x7b" = .error .notImpl ∧
    scan "\x7ba" = .error (.err (1, 2) ["\x7d"] Option.none) ∧
    scan "a\x7db" = .error .notImpl :=
  ⟨rfl, rfl, rfl⟩

/-- Claim C8 (confirmed): parsing `"\x7bIF c\x7ds\x7bELIF\x7d\n\x7bEND\x7d"`
fails, and the span carried by the error is exactly `[13, 14)` — the byte
range where the `ELIF`'s missing code token should appear: had the template
read `\x7bELIF x\x7d`, the code character `x` would occupy exactly offset
13; the range is the span of the newline token the parser received where it
expected a code token.  The error records `expected = code` and
`got = newline`, and the repository's own `test_parse_exception` pins the
formatter output this span produces. -/
theorem c8_elif_error_span :
    parse "\x7bIF c\x7ds\x7bELIF\x7d\n\x7bEND\x7d" =
      .error (.err (13, 14) ["code"] (some "newline")) := rfl

theorem runBranches_none_truthy (ev : EvalFn) (g l : Ctx) :
    ∀ (br : List (String × Node)) (els : Option Node),
    (∀ p ∈ br, (ev p.1 g l).truthy = false) →
    runBranches ev br els g l =
      ((runBranches ev [] els g l).1,
        br.map (fun p => (⟨p.1, g, l⟩ : EvalCall)) ++ (runBranches ev [] els g l).2) := by
  intro br
  induction br with
  | nil => intro els _; simp
  | cons p br' ih =>
    intro els h
    obtain ⟨c, b⟩ := p
    have hc : (ev c g l).truthy = false := h (c, b) (List.mem_cons_self _ _)
    simp only [runBranches, hc, Bool.false_eq_true, if_false]
    rw [ih els (fun q hq => h q (List.mem_cons_of_mem _ hq))]
    simp

theorem runBranches_first_truthy (ev : EvalFn) (g l : Ctx) :
    ∀ (pre post : List (String × Node)) (c : String) (b : Node) (els : Option Node),
    (∀ p ∈ pre, (ev p.1 g l).truthy = false) →
    (ev c g l).truthy = true →
    runBranches ev (pre ++ (c, b) :: post) els g l =
      ((runNode ev b g l).1,
        pre.map (fun p => (⟨p.1, g, l⟩ : EvalCall)) ++ ⟨c, g, l⟩ :: (runNode ev b g l).2) := by
  intro pre
  induction pre with
  | nil =>
    intro post c b els _ hc
    simp only [List.nil_append, runBranches, hc, if_true]
    simp
  | cons p pre' ih =>
    intro post c b els h hc
    obtain ⟨c', b'⟩ := p
    have hp : (ev c' g l).truthy = false := h (c', b') (List.mem_cons_self _ _)
    simp only [List.cons_append, runBranches, hp, Bool.false_eq_true, if_false]
    rw [ih post c b els (fun q hq => h q (List.mem_cons_of_mem _ hq)) hc]
    simp

/-- Claim C2 (confirmed): `IfNode.run` evaluates the branch condition codes
in document order as booleans; the first truthy condition short-circuits —
its branch body is rendered and returned and no later branch's condition is
evaluated (the trace contains exactly the conditions up to and including
the firing one, then only the body's own calls); if no condition is truthy
the else body, when present, is rendered, and otherwise the empty string is
returned with the trace listing every condition once. -/
theorem c2_conditional_first_truthy_short_circuit (ev : EvalFn) (g l : Ctx)
    (branches : List (String × Node)) (els : Option Node) (eb : Node) :
    (∀ pre c b post, branches = pre ++ (c, b) :: post →
        (∀ p ∈ pre, (ev p.1 g l).truthy = false) →
        (ev c g l).truthy = true →
        runNode ev (.ifNode branches els) g l =
          ((runNode ev b g l).1,
            pre.map (fun p => (⟨p.1, g, l⟩ : EvalCall)) ++ ⟨c, g, l⟩ :: (runNode ev b g l).2)) ∧
    ((∀ p ∈ branches, (ev p.1 g l).truthy = false) →
        runNode ev (.ifNode branches (some eb)) g l =
          ((runNode ev eb g l).1,
            branches.map (fun p => (⟨p.1, g, l⟩ : EvalCall)) ++ (runNode ev eb g l).2)) ∧
    ((∀ p ∈ branches, (ev p.1 g l).truthy = false) →
        runNode ev (.ifNode branches Option.none) g l =
          (.ok (.str ""), branches.map (fun p => (⟨p.1, g, l⟩ : EvalCall)))) := by
  refine ⟨?_, ?_, ?_⟩
  · intro pre c b post hbr hpre hc
    subst hbr
    simp only [runNode]
    exact runBranches_first_truthy ev g l pre post c b els hpre hc
  · intro h
    simp only [runNode]
    rw [runBranches_none_truthy ev g l branches (some eb) h]
    simp [runBranches]
  · intro h
    simp only [runNode]
    rw [runBranches_none_truthy ev g l branches Option.none h]
    simp [runBranches]

/-- Witness for C2: with an evaluator that makes `c1` falsy and `c2`
truthy, the conditional with branches `c1 -> "a"`, `c2 -> "b"`, `c3 -> "x"`
renders `"b"` and evaluates exactly `c1` then `c2` — `c3` is never
evaluated; and when every condition is falsy and there is no else branch,
the render is the empty string with all conditions evaluated. -/
theorem c2_witness :
    runNode (fun code _ _ => PyVal.bool (code == "c2"))
        (.ifNode [("c1", .strNode "a"), ("c2", .strNode "b"), ("c3", .strNode "x")]
          Option.none) [] [] =
      (.ok (.str "b"), [⟨"c1", [], []⟩, ⟨"c2", [], []⟩]) ∧
    runNode (fun _ _ _ => PyVal.bool false)
        (.ifNode [("c1", .strNode "a")] Option.none) [] [] =
      (.ok (.str ""), [⟨"c1", [], []⟩]) := by
  constructor
  · have h := (c2_conditional_first_truthy_short_circuit
        (fun code _ _ => PyVal.bool (code == "c2")) [] []
        [("c1", .strNode "a"), ("c2", .strNode "b"), ("c3", .strNode "x")]
        Option.none (.strNode "x")).1
        [("c1", .strNode "a")] "c2" (.strNode "b") [("c3", .strNode "x")]
        rfl (by intro p hp; fin_cases hp; rfl) rfl
    rw [h]
    simp [runNode]
    rfl
  · have h := (c2_conditional_first_truthy_short_circuit
        (fun _ _ _ => PyVal.bool false) [] []
        [("c1", .strNode "a")] Option.none (.strNode "x")).2.2
        (by intro p hp; fin_cases hp; rfl)
    rw [h]
    rfl

theorem dictSet_dictSet (k : String) (v w : PyVal) :
    ∀ d : Ctx, dictSet (dictSet d k v) k w = dictSet d k w := by
  intro d
  induction d with
  | nil => simp [dictSet]
  | cons p rest ih =>
    obtain ⟨k', v'⟩ := p
    by_cases h : k' = k
    · simp [dictSet, h]
    · simp [dictSet, h, ih]

theorem runLoop_eq_collect (ev : EvalFn) (body : Node) (var : String) (g : Ctx) :
    ∀ (items : List PyVal) (nl : Ctx),
    runLoop ev body var g nl items =
      collectLoopRuns (items.map (fun it => runNode ev body g (dictSet nl var it))) := by
  intro items
  induction items with
  | nil => intro nl; simp [runLoop, collectLoopRuns]
  | cons it rest ih =>
    intro nl
    simp only [runLoop, List.map_cons, collectLoopRuns]
    rw [ih (dictSet nl var it)]
    simp only [dictSet_dictSet]
    rcases hrn : runNode ev body g (dictSet nl var it) with ⟨r, t⟩
    cases r <;> simp

/-- Claim C3 (confirmed): `ForNode.run` renders every iteration's body
under a local scope equal to the outer locals with the loop variable bound
to that iteration's item, and the outer scopes are untouched:  it is
extensionally equal to `forRunFreshScopes`, which derives each iteration's
scope directly from the outer locals `l` via `dictSet l var item` and
evaluates the iterable and separator codes against the outer `g`/`l`
themselves.  The one binding an iteration makes (the carried dict's `var`
slot) is overwritten before the next body render and the carried dict is
dropped at the end of the loop, so no binding of one iteration is visible
in another iteration or after the loop. -/
theorem c3_loop_fresh_scope (ev : EvalFn) (var le : String) (body : Node)
    (sep : Option String) (g l : Ctx) :
    runNode ev (.forNode var le body sep) g l =
      forRunFreshScopes ev var le body sep g l := by
  cases hit : pyIter (ev le g l) with
  | error e => simp [runNode, forRunFreshScopes, hit]
  | ok items =>
    simp only [runNode, forRunFreshScopes, hit]
    rw [runLoop_eq_collect]

theorem collectLoopRuns_ok (bs : PyVal → String) (ts : PyVal → List EvalCall) :
    ∀ items : List PyVal,
    collectLoopRuns (items.map (fun it => (.ok (.str (bs it)), ts it))) =
      (.ok (items.map (fun it => PyVal.str (bs it))), (items.map ts).flatten) := by
  intro items
  induction items with
  | nil => rfl
  | cons it rest ih => simp [collectLoopRuns, ih, Except.map]

theorem pyJoin_strs (s : String) :
    ∀ ss : List String, pyJoin s (ss.map PyVal.str) = .ok (String.intercalate s ss) := by
  have h : ∀ ss : List String, pyStrList (ss.map PyVal.str) = Except.ok ss := by
    intro ss
    induction ss with
    | nil => rfl
    | cons x xs ih => simp [pyStrList, ih, Except.map]
  intro ss
  simp [pyJoin, h ss, Except.map]

/-- Counterexample to claim C4: the claim says every Loop node *with a
separator expression* evaluates the separator code exactly once.  But
`ForNode.run` guards the evaluation with Python truthiness
(`if self.separator_expr:`), so a present-but-empty separator expression is
never evaluated at all: rendering a loop whose `separator_expr` is the
empty string performs no separator evaluation (the trace holds only the
iterable's call — zero calls with the separator's code, not one) and joins
with the empty string. -/
theorem c4_counterexample :
    runNode (fun code _ _ => if code = "L" then PyVal.list [.str "b"] else PyVal.str "|")
        (.forNode "x" "L" (.strNode "a") (some "")) [] [] =
      (.ok (.str "a"), [⟨"L", [], []⟩]) ∧
    ((runNode (fun code _ _ => if code = "L" then PyVal.list [.str "b"] else PyVal.str "|")
        (.forNode "x" "L" (.strNode "a") (some "")) [] []).2.countP
      (fun call => call.code == "")) = 0 := by
  have h : runNode (fun code _ _ => if code = "L" then PyVal.list [.str "b"] else PyVal.str "|")
      (.forNode "x" "L" (.strNode "a") (some "")) [] [] =
      (.ok (.str "a"), [⟨"L", [], []⟩]) := by
    simp [runNode, runLoop, pyIter, dictSet]
    rfl
  exact ⟨h, by rw [h]; rfl⟩

/-- Claim C4 as amended: for every Loop node whose separator expression is
present *and nonempty* (Python truthiness: a `None` or empty-string
separator expression is treated as absent — never evaluated, plain
concatenation), rendering evaluates the separator code exactly once, not
once per iteration, against the outer context, and joins the per-iteration
rendered strings with its value; without an (effective) separator the
strings are concatenated directly (`''.join`).  The trace shape makes the
evaluation count explicit: the iterable's call, then exactly the bodies'
calls, then the separator's call once at the end — or no separator call at
all in the second case. -/
theorem c4_separator_once_amended (ev : EvalFn) (g l : Ctx) (var le : String) (body : Node)
    (c : String) (items : List PyVal) (bs : PyVal → String) (ts : PyVal → List EvalCall)
    (s : String)
    (hiter : pyIter (ev le g l) = .ok items)
    (hbody : ∀ it ∈ items, runNode ev body g (dictSet l var it) = (.ok (.str (bs it)), ts it))
    (hc : c ≠ "") (hs : ev c g l = .str s) :
    runNode ev (.forNode var le body (some c)) g l =
      (.ok (.str (String.intercalate s (items.map bs))),
        ⟨le, g, l⟩ :: ((items.map ts).flatten ++ [⟨c, g, l⟩])) ∧
    runNode ev (.forNode var le body Option.none) g l =
      (.ok (.str (String.intercalate "" (items.map bs))),
        ⟨le, g, l⟩ :: (items.map ts).flatten) := by
  have hloop : runLoop ev body var g l items =
      (.ok (items.map (fun it => PyVal.str (bs it))), (items.map ts).flatten) := by
    rw [runLoop_eq_collect]
    rw [List.map_congr_left hbody]
    exact collectLoopRuns_ok bs ts items
  have hjoin := pyJoin_strs s (items.map bs)
  have hjoin0 := pyJoin_strs "" (items.map bs)
  rw [List.map_map] at hjoin hjoin0
  simp only [Function.comp_def] at hjoin hjoin0
  constructor
  · simp only [runNode, hiter, hloop, hc, hs, ite_not, if_false]
    rw [hjoin]
    simp [Except.map]
  · simp only [runNode, hiter, hloop]
    rw [hjoin0]
    simp [Except.map]

/-- Witness for C4 (amended): a two-item loop with separator code `"S"`
evaluating to `"-"` renders `"a-a"` and evaluates `"S"` exactly once, after
the iterations, against the outer context; the same loop without a
separator renders `"aa"` and performs no separator evaluation. -/
theorem c4_witness :
    runNode (fun code _ _ => if code = "L" then PyVal.list [.str "u", .str "v"] else PyVal.str "-")
        (.forNode "x" "L" (.strNode "a") (some "S")) [] [] =
      (.ok (.str "a-a"), [⟨"L", [], []⟩, ⟨"S", [], []⟩]) ∧
    runNode (fun code _ _ => if code = "L" then PyVal.list [.str "u", .str "v"] else PyVal.str "-")
        (.forNode "x" "L" (.strNode "a") Option.none) [] [] =
      (.ok (.str "aa"), [⟨"L", [], []⟩]) := by
  have h := c4_separator_once_amended
      (fun code _ _ => if code = "L" then PyVal.list [.str "u", .str "v"] else PyVal.str "-")
      [] [] "x" "L" (.strNode "a") "S" [.str "u", .str "v"]
      (fun _ => "a") (fun _ => []) "-" rfl
      (by
        intro it hit
        fin_cases hit <;> (simp [runNode]; rfl))
      (by decide) rfl
  obtain ⟨h1, h2⟩ := h
  rw [h1, h2]
  constructor <;> rfl

/-- Claim C7 (confirmed): a statement sequence parsed with
`allow_empty = False` (every use: IF/ELIF/ELSE bodies, FOR bodies and the
top-level root) that collects zero statements — the peeked token is
immediately `ELIF`/`ELSE`/`END`, or the input ends — fails with a
structured error whose expected set is `string, code` (and whose `got` is
the peeked token kind); and whenever `parse_stmts` succeeds, the resulting
sequence has at least one statement, so a body with a statement never
triggers this failure. -/
theorem c7_empty_stmt_seq_rejected (f : Nat) (tk : List Tok) (pos : Nat × Nat) (e : EndInfo) :
    (∀ t rest, tk = t :: rest → t.kind = "keyword" →
        (t.value = "ELIF" ∨ t.value = "ELSE" ∨ t.value = "END") →
        parseStmts (f + 2) false tk pos e =
          .error (.err t.pos ["string", "code"] (some "keyword"))) ∧
    (∀ fp u, tk = [] → e = .eof fp u →
        parseStmts (f + 2) false tk pos e =
          .error (.err fp ["string", "code"] Option.none)) ∧
    (∀ ae node rest pos', parseStmts f ae tk pos e = .ok (node, rest, pos') → ae = false →
        ∃ s ss, node = .stmtsNode (s :: ss)) := by
  refine ⟨?_, ?_, ?_⟩
  · rintro ⟨k, v, p⟩ rest rfl hk hv
    simp only at hk hv
    subst hk
    simp only [parseStmts, parseStmtsLoop, pPeek, bind, Except.bind]
    rw [if_pos hv]
    simp [List.isEmpty]
  · rintro fp u rfl rfl
    simp [parseStmts, parseStmtsLoop, pPeek, bind, Except.bind, List.isEmpty]
  · intro ae node rest pos' h hae
    subst hae
    match f with
    | 0 => simp [parseStmts] at h
    | f' + 1 =>
      rcases hl : parseStmtsLoop f' [] tk pos e with he | ⟨stmts, got, tk', pos''⟩
      · simp [parseStmts, hl, bind, Except.bind] at h
      · simp only [parseStmts, hl, bind, Except.bind] at h
        by_cases hemp : stmts.isEmpty
        · simp [hemp] at h
        · simp only [hemp, Bool.not_false, true_and, Bool.and_self, if_false] at h
          cases stmts with
          | nil => simp at hemp
          | cons s ss =>
            simp at h
            exact ⟨s, ss, h.1.symm⟩

/-- Witness for C7: an immediate `END` keyword and an immediately exhausted
input both make `parse_stmts` fail expecting `string, code`, and a
sequence that did parse one string statement is nonempty. -/
theorem c7_witness :
    parseStmts 2 false [⟨"keyword", "END", (0, 3)⟩] (0, 0) (.eof (4, 5) false) =
      .error (.err (0, 3) ["string", "code"] (some "keyword")) ∧
    parseStmts 2 false [] (0, 0) (.eof (1, 2) false) =
      .error (.err (1, 2) ["string", "code"] Option.none) ∧
    (∃ s ss, Node.stmtsNode [Node.strNode "s"] = .stmtsNode (s :: ss)) := by
  refine ⟨?_, ?_, ?_⟩
  · exact (c7_empty_stmt_seq_rejected 0 _ _ _).1 ⟨"keyword", "END", (0, 3)⟩ [] rfl rfl
      (Or.inr (Or.inr rfl))
  · exact (c7_empty_stmt_seq_rejected 0 _ _ _).2.1 (1, 2) false rfl rfl
  · exact (c7_empty_stmt_seq_rejected 3 [⟨"string", "s", (0, 1)⟩] (0, 0)
      (.eof (1, 2) false)).2.2 false (.stmtsNode [.strNode "s"]) [] (1, 2) rfl rfl

theorem markerLine_eq (start stop : Int) (h0 : 0 ≤ start) (hs : start ≤ stop) :
    markerLine start stop =
      ⟨List.replicate start.toNat ' ' ++ List.replicate (stop - start).toNat '^'⟩ := by
  unfold markerLine
  congr 1
  have hab : start.toNat ≤ stop.toNat := Int.toNat_le_toNat hs
  have hsub : (stop - start).toNat = stop.toNat - start.toNat := by omega
  rw [hsub]
  apply List.ext_getElem
  · simp
    omega
  · intro i h1 h2
    simp only [List.getElem_map, List.getElem_range]
    have hi : (Int.ofNat i < start) ↔ (i < start.toNat) := Int.lt_toNat.symm
    by_cases hia : i < start.toNat
    · rw [if_pos (hi.mpr hia), List.getElem_append_left (by simpa using hia)]
      simp
    · rw [if_neg (fun hq => hia (hi.mp hq)), List.getElem_append_right (by simpa using hia)]
      simp

theorem readableGo_eq_amended :
    ∀ (lines : List String) (start stop : Int), start ≤ stop →
    readableGo start stop lines = readableAmendedGo start stop lines := by
  intro lines
  induction lines with
  | nil => intro start stop _; rfl
  | cons line rest ih =>
    intro start stop hs
    simp only [readableGo, readableAmendedGo]
    rw [ih (start - (line.length + 1)) (stop - (line.length + 1)) (by omega)]
    by_cases h : 0 ≤ start ∧ start ≤ (line.length : Int)
    · rw [if_pos ⟨by omega, h.1⟩, if_pos h, markerLine_eq start stop h.1 hs]
    · rw [if_neg (fun hc => h ⟨hc.2, by omega⟩), if_neg h]

/-- Counterexample to claim C9: the claim describes the formatter as
printing, under *each* line overlapping the error span, carets under the
covered columns *clipped to the line's length*.  The real parse error of
`"\x7bIF c\x7ds\x7bELIF\x7d\n\x7bEND\x7d"` carries span `[13, 14)` — the
newline terminating the first line.  The clipped-formatter reading of the
spec (`readableSpecFmt`) prints no marker at all (the span covers no real
column of any line), but `readable_error_position` prints a caret at
column 13 of the first line, one position past the line's last column: the
marker is not clipped, so the two formatters disagree on a real error. -/
theorem c9_counterexample :
    parse "\x7bIF c\x7ds\x7bELIF\x7d\n\x7bEND\x7d" =
      .error (.err (13, 14) ["code"] (some "newline")) ∧
    readableErrorPosition (13, 14) "\x7bIF c\x7ds\x7bELIF\x7d\n\x7bEND\x7d" =
      "\x7bIF c\x7ds\x7bELIF\x7d\n             ^\n\x7bEND\x7d\n" ∧
    readableSpecFmt (13, 14) "\x7bIF c\x7ds\x7bELIF\x7d\n\x7bEND\x7d" =
      "\x7bIF c\x7ds\x7bELIF\x7d\n\x7bEND\x7d\n" ∧
    readableErrorPosition (13, 14) "\x7bIF c\x7ds\x7bELIF\x7d\n\x7bEND\x7d" ≠
      readableSpecFmt (13, 14) "\x7bIF c\x7ds\x7bELIF\x7d\n\x7bEND\x7d" := by
  refine ⟨rfl, rfl, rfl, ?_⟩
  decide

/-- Claim C9 as amended: the formatter reprints every source line; a marker
line is printed only under the line containing the span's *start* offset
(a start equal to the line's length — pointing at its newline — still
counts), never under later lines of a multi-line span; the marker has one
character per position from column 0 up to the span's stop offset relative
to that line: spaces before the start column and carets from the start
column on, *not* clipped to the line's length.  Formally,
`readable_error_position` coincides with `readableAmendedFmt`, which is
written exactly in those terms, for every span with `start <= stop`. -/
theorem c9_formatter_amended (input : String) (s t : Nat) (h : s ≤ t) :
    readableErrorPosition (s, t) input = readableAmendedFmt (s, t) input := by
  unfold readableErrorPosition readableAmendedFmt
  exact readableGo_eq_amended _ (s : Int) (t : Int) (by exact_mod_cast h)

/-- Witness for the amended C9 at the real parse error span `[13, 14)`. -/
theorem c9_witness :
    13 ≤ 14 ∧
    readableErrorPosition (13, 14) "\x7bIF c\x7ds\x7bELIF\x7d\n\x7bEND\x7d" =
      readableAmendedFmt (13, 14) "\x7bIF c\x7ds\x7bELIF\x7d\n\x7bEND\x7d" :=
  ⟨by decide, c9_formatter_amended _ 13 14 (by decide)⟩


theorem head?_dropWhile_false (p : Char → Bool) :
    ∀ (l : List Char) (c : Char), (l.dropWhile p).head? = some c → p c = false := by
  intro l
  induction l with
  | nil => intro c h; simp [List.dropWhile] at h
  | cons a rest ih =>
    intro c h
    by_cases hp : p a
    · rw [List.dropWhile_cons_of_pos hp] at h
      exact ih c h
    · rw [List.dropWhile_cons_of_neg hp] at h
      simp at h
      subst h
      simpa using hp

theorem getLast?_dropWhile (p : Char → Bool) :
    ∀ l : List Char, l.dropWhile p ≠ [] → (l.dropWhile p).getLast? = l.getLast? := by
  intro l
  induction l with
  | nil => intro h; simp [List.dropWhile] at h
  | cons a rest ih =>
    intro h
    by_cases hp : p a
    · rw [List.dropWhile_cons_of_pos hp] at h ⊢
      rw [ih h]
      have hrest : rest ≠ [] := by
        intro hr
        subst hr
        simp [List.dropWhile] at h
      cases rest with
      | nil => exact absurd rfl hrest
      | cons b rest' => rw [List.getLast?_cons_cons]
    · rw [List.dropWhile_cons_of_neg hp]

theorem noEdgeWS_pyStrip (s : String) : noEdgeWS (pyStrip s) = true := by
  unfold noEdgeWS pyStrip pyStripList
  rw [Bool.and_eq_true]
  constructor
  · rw [List.head?_reverse]
    cases hzl : (((s.data.dropWhile pyIsSpace).reverse).dropWhile pyIsSpace).getLast? with
    | none => simp
    | some c =>
      have hne : ((s.data.dropWhile pyIsSpace).reverse).dropWhile pyIsSpace ≠ [] := by
        intro h0
        rw [h0] at hzl
        simp at hzl
      rw [getLast?_dropWhile pyIsSpace _ hne, List.getLast?_reverse] at hzl
      have := head?_dropWhile_false pyIsSpace s.data c hzl
      simp [hzl, this]
  · rw [List.getLast?_reverse]
    cases hzh : (((s.data.dropWhile pyIsSpace).reverse).dropWhile pyIsSpace).head? with
    | none => simp
    | some c =>
      have := head?_dropWhile_false pyIsSpace _ c hzh
      simp [hzh, this]

theorem parseCode_noEdge (tk : List Tok) (pos : Nat × Nat) (e : EndInfo)
    (c : String) (tk' : List Tok) (pos' : Nat × Nat)
    (h : parseCode tk pos e = .ok (c, tk', pos')) : noEdgeWS c = true := by
  cases tk with
  | nil =>
    cases e <;> simp [parseCode, pNext, bind, Except.bind] at h
  | cons t rest =>
    simp only [parseCode, pNext, bind, Except.bind] at h
    split at h
    · rename_i heq
      simp at h
      obtain ⟨hc, _⟩ := h
      subst hc
      exact noEdgeWS_pyStrip _
    · simp at h
    · simp at h

theorem allCodesStripped_stmtsNode_iff (ss : List Node) :
    allCodesStripped (.stmtsNode ss) = true ↔ ∀ n ∈ ss, allCodesStripped n = true := by
  simp [allCodesStripped, List.all_eq_true, Subtype.forall]

theorem allCodesStripped_ifNode_iff (br : List (String × Node)) (els : Option Node) :
    allCodesStripped (.ifNode br els) = true ↔
      ((∀ p ∈ br, noEdgeWS p.1 = true ∧ allCodesStripped p.2 = true) ∧
       (∀ e, els = some e → allCodesStripped e = true)) := by
  cases els <;>
    simp [allCodesStripped, List.all_eq_true, Subtype.forall, Bool.and_eq_true]

theorem allCodesStripped_forNode_iff (v le : String) (b : Node) (sep : Option String) :
    allCodesStripped (.forNode v le b sep) = true ↔
      (noEdgeWS v = true ∧ noEdgeWS le = true ∧ allCodesStripped b = true ∧
       (∀ s, sep = some s → noEdgeWS s = true)) := by
  cases sep <;> simp [allCodesStripped, Bool.and_eq_true] <;> tauto


theorem parserCodesStripped (f : Nat) :
    (∀ tk pos e n tk2 pos2, parseStmt f tk pos e = .ok (n, tk2, pos2) →
        allCodesStripped n = true) ∧
    (∀ acc tk pos e stmts got tk2 pos2,
        parseStmtsLoop f acc tk pos e = .ok (stmts, got, tk2, pos2) →
        (∀ n ∈ acc, allCodesStripped n = true) →
        ∀ n ∈ stmts, allCodesStripped n = true) ∧
    (∀ ae tk pos e n tk2 pos2, parseStmts f ae tk pos e = .ok (n, tk2, pos2) →
        allCodesStripped n = true) ∧
    (∀ br tk pos e brs els tk2 pos2,
        parseIfLoop f br tk pos e = .ok (brs, els, tk2, pos2) →
        (∀ p ∈ br, noEdgeWS p.1 = true ∧ allCodesStripped p.2 = true) →
        ((∀ p ∈ brs, noEdgeWS p.1 = true ∧ allCodesStripped p.2 = true) ∧
         (∀ e2, els = some e2 → allCodesStripped e2 = true))) ∧
    (∀ tk pos e n tk2 pos2, parseIf f tk pos e = .ok (n, tk2, pos2) →
        allCodesStripped n = true) ∧
    (∀ tk pos e n tk2 pos2, parseFor f tk pos e = .ok (n, tk2, pos2) →
        allCodesStripped n = true) := by
  induction f with
  | zero =>
    refine ⟨?_, ?_, ?_, ?_, ?_, ?_⟩
    · intro tk pos e n tk2 pos2 h
      simp [parseStmt] at h
    · intro acc tk pos e stmts got tk2 pos2 h
      simp [parseStmtsLoop] at h
    · intro ae tk pos e n tk2 pos2 h
      simp [parseStmts] at h
    · intro br tk pos e brs els tk2 pos2 h
      simp [parseIfLoop] at h
    · intro tk pos e n tk2 pos2 h
      simp [parseIf] at h
    · intro tk pos e n tk2 pos2 h
      simp [parseFor] at h
  | succ f ih =>
    obtain ⟨ihStmt, ihLoop, ihStmts, ihIfLoop, ihIf, ihFor⟩ := ih
    refine ⟨?_, ?_, ?_, ?_, ?_, ?_⟩
    · -- parseStmt (f+1)
      intro tk pos e n tk2 pos2 h
      cases tk with
      | nil =>
        cases e <;> simp [parseStmt, pPeek, bind, Except.bind] at h
      | cons t rest =>
        simp only [parseStmt, pPeek, bind, Except.bind] at h
        split at h
        · exact ihIf _ _ _ _ _ _ h
        · exact ihFor _ _ _ _ _ _ h
        · rename_i k v heq
          split at h
          · rcases hps : parseString (t :: rest) t.pos e with pe | ⟨s, tkx, px⟩
            · rw [hps] at h
              simp at h
            · rw [hps] at h
              simp at h
              obtain ⟨hn, _⟩ := h
              subst hn
              simp [allCodesStripped]
          · split at h
            · rcases hpc : parseCode (t :: rest) t.pos e with pe | ⟨c, tkx, px⟩
              · rw [hpc] at h
                simp at h
              · rw [hpc] at h
                simp at h
                obtain ⟨hn, _⟩ := h
                subst hn
                simpa [allCodesStripped] using parseCode_noEdge _ _ _ _ _ _ hpc
            · simp at h
        · simp at h
    · -- parseStmtsLoop (f+1)
      intro acc tk pos e stmts got tk2 pos2 h hacc
      cases tk with
      | nil =>
        cases e with
        | notImplemented => simp [parseStmtsLoop, pPeek, bind, Except.bind] at h
        | eof fp u =>
          simp [parseStmtsLoop, pPeek, bind, Except.bind] at h
          obtain ⟨hs, _⟩ := h
          subst hs
          intro n hn
          exact hacc n (by simpa using hn)
      | cons t rest =>
        simp only [parseStmtsLoop, pPeek, bind, Except.bind] at h
        split at h
        · -- some ("keyword", v) arm
          split at h
          · -- terminator: returns acc.reverse
            simp at h
            obtain ⟨hs, _⟩ := h
            subst hs
            intro n hn
            exact hacc n (by simpa using hn)
          · -- statement path
            rcases hs : parseStmt f (t :: rest) t.pos e with pe | ⟨n', tk', pos''⟩
            · rw [hs] at h
              simp at h
            · rw [hs] at h
              refine ihLoop (n' :: acc) _ _ _ _ _ _ _ h ?_
              intro m hm
              rcases List.mem_cons.mp hm with rfl | hm'
              · exact ihStmt _ _ _ _ _ _ hs
              · exact hacc m hm'
        · -- some non-keyword arm
          rcases hs : parseStmt f (t :: rest) t.pos e with pe | ⟨n', tk', pos''⟩
          · rw [hs] at h
            simp at h
          · rw [hs] at h
            refine ihLoop (n' :: acc) _ _ _ _ _ _ _ h ?_
            intro m hm
            rcases List.mem_cons.mp hm with rfl | hm'
            · exact ihStmt _ _ _ _ _ _ hs
            · exact hacc m hm'
        · -- none arm (impossible for cons)
          simp at h
          obtain ⟨hs, _⟩ := h
          subst hs
          intro n hn
          exact hacc n (by simpa using hn)
    · -- parseStmts (f+1)
      intro ae tk pos e n tk2 pos2 h
      simp only [parseStmts, bind, Except.bind] at h
      rcases hl : parseStmtsLoop f [] tk pos e with pe | ⟨stmts, got, tkA, pA⟩
      · simp [hl] at h
      · simp only [hl] at h
        by_cases hcond : (!ae) = true ∧ stmts.isEmpty = true
        · rw [if_pos hcond] at h
          simp at h
        · rw [if_neg hcond] at h
          simp at h
          obtain ⟨hn, _⟩ := h
          subst hn
          rw [allCodesStripped_stmtsNode_iff]
          refine ihLoop [] _ _ _ _ _ _ _ hl ?_
          intro m hm
          simp at hm
    · -- parseIfLoop (f+1)
      intro br tk pos e brs els tk2 pos2 h hbr
      cases tk with
      | nil =>
        cases e with
        | notImplemented => simp [parseIfLoop, pPeek, bind, Except.bind] at h
        | eof fp u =>
          simp only [parseIfLoop, pPeek, bind, Except.bind] at h
          exact ihIfLoop _ _ _ _ _ _ _ _ h hbr
      | cons t rest =>
        simp only [parseIfLoop, pPeek, pNext, bind, Except.bind] at h
        split at h
        · -- ELIF
          rcases h2 : parseCode rest t.pos e with pe | ⟨c, tkB, pB⟩
          · simp [h2] at h
          · simp only [h2] at h
            rcases h3 : parseStmts f false tkB pB e with pe | ⟨b, tkC, pC⟩
            · simp [h3] at h
            · simp only [h3] at h
              refine ihIfLoop (br ++ [(c, b)]) _ _ _ _ _ _ _ h ?_
              intro p hp
              rcases List.mem_append.mp hp with hp' | hp'
              · exact hbr p hp'
              · simp at hp'
                subst hp'
                exact ⟨parseCode_noEdge _ _ _ _ _ _ h2, ihStmts _ _ _ _ _ _ _ h3⟩
        · -- ELSE
          rcases h3 : parseStmts f false rest t.pos e with pe | ⟨b, tkC, pC⟩
          · simp [h3] at h
          · simp [h3] at h
            obtain ⟨hbrs, hels, _⟩ := h
            subst hbrs
            constructor
            · exact hbr
            · intro e2 he2
              rw [← hels] at he2
              injection he2 with he2
              rw [← he2]
              exact ihStmts _ _ _ _ _ _ _ h3
        · -- END
          simp at h
          obtain ⟨hbrs, hels, _⟩ := h
          subst hbrs
          constructor
          · exact hbr
          · intro e2 he2
            rw [← hels] at he2
            simp at he2
        · -- keyword other
          simp at h
        · -- default: the spin
          exact ihIfLoop _ _ _ _ _ _ _ _ h hbr
    · -- parseIf (f+1)
      intro tk pos e n tk2 pos2 h
      simp only [parseIf, bind, Except.bind] at h
      rcases h1 : parseKeyword "IF" tk pos e with pe | ⟨tkA, pA⟩
      · simp [h1] at h
      · simp only [h1] at h
        rcases h2 : parseCode tkA pA e with pe | ⟨c, tkB, pB⟩
        · simp [h2] at h
        · simp only [h2] at h
          rcases h3 : parseStmts f false tkB pB e with pe | ⟨b, tkC, pC⟩
          · simp [h3] at h
          · simp only [h3] at h
            rcases h4 : parseIfLoop f [(c, b)] tkC pC e with pe | ⟨branches, els, tkD, pD⟩
            · simp [h4] at h
            · simp only [h4] at h
              rcases h5 : parseKeyword "END" tkD pD e with pe | ⟨tkE, pE⟩
              · simp [h5] at h
              · simp [h5] at h
                obtain ⟨hn, _⟩ := h
                subst hn
                rw [allCodesStripped_ifNode_iff]
                refine ihIfLoop _ _ _ _ _ _ _ _ h4 ?_
                intro p hp
                simp at hp
                subst hp
                exact ⟨parseCode_noEdge _ _ _ _ _ _ h2, ihStmts _ _ _ _ _ _ _ h3⟩
    · -- parseFor (f+1)
      intro tk pos e n tk2 pos2 h
      simp only [parseFor, bind, Except.bind] at h
      rcases h1 : parseKeyword "FOR" tk pos e with pe | ⟨tkA, pA⟩
      · simp [h1] at h
      · simp only [h1] at h
        rcases h2 : parseCode tkA pA e with pe | ⟨v, tkB, pB⟩
        · simp [h2] at h
        · simp only [h2] at h
          rcases h3 : parseKeyword "IN" tkB pB e with pe | ⟨tkC, pC⟩
          · simp [h3] at h
          · simp only [h3] at h
            rcases h4 : parseCode tkC pC e with pe | ⟨le, tkD, pD⟩
            · simp [h4] at h
            · simp only [h4] at h
              rcases h5 : pPeek tkD pD e with pe | ⟨t, pE⟩
              · simp [h5] at h
              · simp only [h5] at h
                split at h
                · -- SEPARATOR present
                  rcases h6 : parseKeyword "SEPARATOR" tkD pE e with pe | ⟨tkE, pF⟩
                  · simp [h6] at h
                  · simp only [h6] at h
                    rcases h7 : parseCode tkE pF e with pe | ⟨sep, tkF, pG⟩
                    · simp [h7] at h
                    · simp only [h7] at h
                      rcases h8 : parseStmts f false tkF pG e with pe | ⟨b, tkG, pH⟩
                      · simp [h8] at h
                      · simp only [h8] at h
                        rcases h9 : parseKeyword "END" tkG pH e with pe | ⟨tkH, pI⟩
                        · simp [h9] at h
                        · simp [h9] at h
                          obtain ⟨hn, _⟩ := h
                          subst hn
                          rw [allCodesStripped_forNode_iff]
                          refine ⟨parseCode_noEdge _ _ _ _ _ _ h2,
                            parseCode_noEdge _ _ _ _ _ _ h4,
                            ihStmts _ _ _ _ _ _ _ h8, ?_⟩
                          intro s hs
                          injection hs with hs
                          rw [← hs]
                          exact parseCode_noEdge _ _ _ _ _ _ h7
                · -- no SEPARATOR
                  rcases h8 : parseStmts f false tkD pE e with pe | ⟨b, tkG, pH⟩
                  · simp [h8] at h
                  · simp only [h8] at h
                    rcases h9 : parseKeyword "END" tkG pH e with pe | ⟨tkH, pI⟩
                    · simp [h9] at h
                    · simp [h9] at h
                      obtain ⟨hn, _⟩ := h
                      subst hn
                      rw [allCodesStripped_forNode_iff]
                      refine ⟨parseCode_noEdge _ _ _ _ _ _ h2,
                        parseCode_noEdge _ _ _ _ _ _ h4,
                        ihStmts _ _ _ _ _ _ _ h8, ?_⟩
                      intro s hs
                      simp at hs


/-- Claim C10 (confirmed): every code string stored in a successfully
parsed AST — an Expression's code, a conditional branch's condition, a
loop's variable name, iterable code and separator code — has no leading or
trailing whitespace, because every one of them passes through
`Parser.parse_code`, which returns the code token's text stripped; a
directive written `\x7b name \x7d` therefore stores the code string
`"name"`. -/
theorem c10_parsed_codes_stripped (input : String) (ast : Node)
    (h : parse input = .ok ast) : allCodesStripped ast = true := by
  unfold parse at h
  dsimp only at h
  rcases hx : parseXtend (4 * input.length + 16) (scanTokens input).1 (scanTokens input).2
    with pe | ⟨node, posE⟩
  · rw [hx] at h
    simp [Except.map] at h
  · rw [hx] at h
    simp only [Except.map] at h
    have hna : node = ast := by
      simpa using h
    subst hna
    unfold parseXtend at hx
    simp only [bind, Except.bind] at hx
    split at hx
    · simp at hx
    · rename_i v hps
      obtain ⟨n, tkA, pA⟩ := v
      split at hx
      · simp at hx
      · rename_i v1 hpn
        split at hx
        · simp at hx
        · split at hx
          · simp at hx
          · simp at hx
            rw [← hx.1]
            exact (parserCodesStripped (4 * input.length + 16)).2.2.1 _ _ _ _ _ _ _ hps

/-- Witness for C10: the template `\x7b name \x7d` parses to a single
expression whose stored code is the stripped string `"name"`, and the
parsed AST passes the no-edge-whitespace check. -/
theorem c10_witness :
    parse "\x7b name \x7d" = .ok (.stmtsNode [.exprNode "name"]) ∧
    allCodesStripped (.stmtsNode [.exprNode "name"]) = true :=
  ⟨rfl, c10_parsed_codes_stripped "\x7b name \x7d" _ rfl⟩

end Xtend
